import Mathlib

/-!
Shallow embedding of the AIS decoder in `ais_mqtt_bridge.py` (class
`AISMQTTBridge`): the 6-bit-ASCII armoring loop and per-type field
extraction of `decode_payload`, the 6-bit text decoding of
`decode_string`, and the NMEA field splitting of `parse_nmea`.

Python strings are modelled as `List Char`; Python's `try/except` that
turns any exception into `None` is modelled by computing in `Option`,
where `none` is the exception path.  Python floats (`/ 600000.0`,
`/ 10.0`) are modelled as exact rationals: the claims concern sign
handling, interval bounds and sentinel values, all of which are about
the exact quotients.
-/

/-- Python `s[a:b]` on a string (with the clamping slice semantics),
for `a ≤ b`. -/
def pySlice (s : List Char) (a b : Nat) : List Char :=
  (s.drop a).take (b - a)

/-- Accumulator loop for parsing a binary numeral: consumes digits
`'0'`/`'1'`, any other character is an error. -/
def parseBinCore (acc : Nat) : List Char → Option Nat
  | [] => some acc
  | c :: rest =>
    if c = '0' then parseBinCore (2 * acc) rest
    else if c = '1' then parseBinCore (2 * acc + 1) rest
    else none

/-- A nonempty string of binary digits, most significant first. -/
def parseBinNat (s : List Char) : Option Nat :=
  if s = [] then none else parseBinCore 0 s

/-- Python `int(s, 2)` restricted to the strings this program builds:
an optional leading `'-'` followed by binary digits.  (Python's extra
leniencies for base-2 literals — surrounding whitespace, a `0b` prefix,
digit-group underscores — cannot occur in the `binary` strings produced
by `decode_payload`, which consist of `format(_, '06b')` output only.) -/
def pyIntBin (s : List Char) : Option Int :=
  if s.head? = some '-' then
    match parseBinNat (s.drop 1) with
    | some n => some (-(n : Int))
    | none => none
  else
    match parseBinNat s with
    | some n => some ((n : Int))
    | none => none

/-- `int(binary[a:b], 2)`, the field-extraction idiom of `decode_payload`. -/
def intSlice (binary : List Char) (a b : Nat) : Option Int :=
  pyIntBin (pySlice binary a b)

/-- Python `str.isspace` characters up to Latin-1; Python additionally
treats some higher Unicode space characters as whitespace, which the
ASCII NMEA inputs of this program never contain. -/
def pyIsSpace (c : Char) : Bool :=
  c = ' ' || c = '\t' || c = '\n' || c = '\r' || c = '\x0b' || c = '\x0c' ||
  c = '\x1c' || c = '\x1d' || c = '\x1e' || c = '\x1f' || c = '\x85' || c = '\xa0'

/-- Python `str.strip(chars)`: remove characters satisfying `p` from
both ends. -/
def stripBoth (p : Char → Bool) (l : List Char) : List Char :=
  ((l.dropWhile p).reverse.dropWhile p).reverse

/-- One decimal digit. -/
def digitVal (c : Char) : Option Nat :=
  if '0' ≤ c ∧ c ≤ '9' then some (c.toNat - 48) else none

/-- Digits of a decimal numeral after the first one: Python `int`
accepts single underscores between digits. -/
def parseDecCore (acc : Nat) : List Char → Option Nat
  | [] => some acc
  | c :: rest =>
    if c = '_' then
      match rest with
      | [] => none
      | d :: rest2 =>
        match digitVal d with
        | some v => parseDecCore (10 * acc + v) rest2
        | none => none
    else
      match digitVal c with
      | some v => parseDecCore (10 * acc + v) rest
      | none => none

/-- A nonempty decimal numeral, possibly with grouping underscores. -/
def parseDecNat : List Char → Option Nat
  | [] => none
  | c :: rest =>
    match digitVal c with
    | some d => parseDecCore d rest
    | none => none

/-- Python `int(s)` (base 10): optional surrounding whitespace, an
optional single sign, then a decimal numeral.  (Python also accepts
non-ASCII Unicode digits, which the ASCII NMEA inputs never contain.) -/
def pyIntDec (s : List Char) : Option Int :=
  let t := stripBoth pyIsSpace s
  if t.head? = some '-' then
    match parseDecNat (t.drop 1) with
    | some n => some (-(n : Int))
    | none => none
  else if t.head? = some '+' then
    match parseDecNat (t.drop 1) with
    | some n => some ((n : Int))
    | none => none
  else
    match parseDecNat t with
    | some n => some ((n : Int))
    | none => none

/-- Python `s.split(sep)` for a one-character separator. -/
def pySplit (s : List Char) (sep : Char) : List (List Char) :=
  match s with
  | [] => [[]]
  | c :: rest =>
    let r := pySplit rest sep
    if c = sep then [] :: r
    else
      match r with
      | h :: t => (c :: h) :: t
      | [] => [[c]]

/-- The per-character value computed by the armoring loop of
`decode_payload`: `ord(char) - 48`, and 8 more subtracted when the
intermediate value exceeds 40. -/
def charVal (c : Char) : Int :=
  let v : Int := (c.toNat : Int) - 48
  if v > 40 then v - 8 else v

/-- Digit loop of `natBin`, structurally recursive on a fuel bound so
that the kernel can evaluate it; the fuel never runs out, since halving
a number `< fuel` keeps it `< fuel - 1` whenever another step is taken. -/
def natBinGo : Nat → Nat → List Char
  | 0, _ => []
  | fuel + 1, n =>
    if n < 2 then [if n = 1 then '1' else '0']
    else natBinGo fuel (n / 2) ++ [if n % 2 = 1 then '1' else '0']

/-- Binary digits of a natural number, most significant first
(`natBin 0 = ['0']`), as produced by Python `format(_, 'b')`. -/
def natBin (n : Nat) : List Char := natBinGo (n + 1) n

/-- Left-pad with `'0'` to width `w` (no-op when already at least that
long). -/
def padZero (w : Nat) (l : List Char) : List Char :=
  List.replicate (w - l.length) '0' ++ l

/-- Python `format(v, '06b')`: minimum width 6 including the sign,
zero-filled after the sign, never truncating. -/
def format06b (v : Int) : List Char :=
  if v < 0 then '-' :: padZero 5 (natBin v.natAbs)
  else padZero 6 (natBin v.toNat)

/-- The armoring loop of `decode_payload`: `binary += format(ord_c, '06b')`
for each payload character in order. -/
def armorBits : List Char → List Char
  | [] => []
  | c :: rest => format06b (charVal c) ++ armorBits rest

/-- Python `chr` on the values reachable in `decode_string` (all lie in
the valid codepoint range, so the fallback of `Char.ofNat` is never
taken). -/
def pyChr (v : Int) : Char := Char.ofNat v.toNat

/-- The loop of `decode_string` (`for i in range(0, len(binary), 6)`),
structurally recursive on a fuel bound that the 6-character steps never
exhaust: take 6-character groups, stop at the first group that is
literally `"000000"`, parse each group in base 2, add 64 to values
below 32. -/
def decodeStringGo : Nat → List Char → Option (List Char)
  | 0, _ => some []
  | fuel + 1, s =>
    if s = [] then some []
    else
      let g := s.take 6
      if g = ['0', '0', '0', '0', '0', '0'] then some []
      else
        match pyIntBin g with
        | none => none
        | some v =>
          let w : Int := if v < 32 then v + 64 else v
          match decodeStringGo fuel (s.drop 6) with
          | none => none
          | some rest => some (pyChr w :: rest)

/-- The group loop of `decode_string`, entered with enough fuel for its
input. -/
def decodeStringLoop (s : List Char) : Option (List Char) :=
  decodeStringGo s.length s

/-- `AISMQTTBridge.decode_string`: decode the loop result, then
`result.strip("@").strip()`. -/
def decode_string (binary : List Char) : Option (List Char) :=
  match decodeStringLoop binary with
  | some r => some (stripBoth pyIsSpace (stripBoth (fun c => c = '@') r))
  | none => none

/-- The decoded dictionary built by `decode_payload`: `msg_type` is
always present, every other key only for the message types that set it. -/
structure Decoded where
  msg_type : Int
  repeat_ind : Option Int := none
  mmsi : Option Int := none
  nav_status : Option Int := none
  rot : Option Int := none
  sog : Option ℚ := none
  pos_accuracy : Option Bool := none
  longitude : Option ℚ := none
  latitude : Option ℚ := none
  cog : Option ℚ := none
  true_heading : Option Int := none
  timestamp : Option Int := none
  ais_version : Option Int := none
  imo : Option Int := none
  callsign : Option (List Char) := none
  shipname : Option (List Char) := none
  ship_type : Option Int := none
  to_bow : Option Int := none
  to_stern : Option Int := none
  to_port : Option Int := none
  to_starboard : Option Int := none
  part_no : Option Int := none
  vendor_id : Option (List Char) := none
deriving DecidableEq

/-- Longitude scaling of `decode_payload` (types 1/2/3 lines 70-73 and
type 18 lines 110-113): divide by 600000.0, replacing the value by
`-(0x10000000 - raw) / 600000.0` when `raw >= 0x8000000`. -/
def lonFromRaw (raw : Int) : ℚ :=
  if raw ≥ 0x8000000 then -((0x10000000 : ℚ) - (raw : ℚ)) / 600000
  else (raw : ℚ) / 600000

/-- Latitude scaling of `decode_payload` (27-bit analogue of
`lonFromRaw`, threshold `0x4000000`). -/
def latFromRaw (raw : Int) : ℚ :=
  if raw ≥ 0x4000000 then -((0x8000000 : ℚ) - (raw : ℚ)) / 600000
  else (raw : ℚ) / 600000

/-- The `msg_type in [1, 2, 3]` branch of `decode_payload`
(Position Report Class A). -/
def decodeType123 (binary : List Char) (mt : Int) : Option Decoded :=
  (intSlice binary 61 89).bind fun raw_lon =>
  (intSlice binary 89 116).bind fun raw_lat =>
  (intSlice binary 6 8).bind fun rpt =>
  (intSlice binary 8 38).bind fun mmsi =>
  (intSlice binary 38 42).bind fun nav =>
  (intSlice binary 42 50).bind fun rot =>
  (intSlice binary 50 60).bind fun sograw =>
  (intSlice binary 60 61).bind fun acc =>
  (intSlice binary 116 128).bind fun cograw =>
  (intSlice binary 128 137).bind fun hdg =>
  (intSlice binary 137 143).bind fun ts =>
  some { msg_type := mt, repeat_ind := some rpt, mmsi := some mmsi,
         nav_status := some nav, rot := some rot,
         sog := some ((sograw : ℚ) / 10),
         pos_accuracy := some (acc != 0),
         longitude := some (lonFromRaw raw_lon),
         latitude := some (latFromRaw raw_lat),
         cog := some ((cograw : ℚ) / 10),
         true_heading := some hdg, timestamp := some ts }

/-- The `msg_type == 5` branch of `decode_payload`
(Static and Voyage Related Data). -/
def decodeType5 (binary : List Char) (mt : Int) : Option Decoded :=
  (intSlice binary 6 8).bind fun rpt =>
  (intSlice binary 8 38).bind fun mmsi =>
  (intSlice binary 38 40).bind fun ver =>
  (intSlice binary 40 70).bind fun imo =>
  (decode_string (pySlice binary 70 112)).bind fun callsign =>
  (decode_string (pySlice binary 112 232)).bind fun shipname =>
  (intSlice binary 232 240).bind fun stype =>
  (intSlice binary 240 249).bind fun tb =>
  (intSlice binary 249 258).bind fun tst =>
  (intSlice binary 258 264).bind fun tp =>
  (intSlice binary 264 270).bind fun tsb =>
  some { msg_type := mt, repeat_ind := some rpt, mmsi := some mmsi,
         ais_version := some ver, imo := some imo,
         callsign := some callsign, shipname := some shipname,
         ship_type := some stype, to_bow := some tb, to_stern := some tst,
         to_port := some tp, to_starboard := some tsb }

/-- The `msg_type == 18` branch of `decode_payload`
(Standard Class B Position Report). -/
def decodeType18 (binary : List Char) (mt : Int) : Option Decoded :=
  (intSlice binary 57 85).bind fun raw_lon =>
  (intSlice binary 85 112).bind fun raw_lat =>
  (intSlice binary 6 8).bind fun rpt =>
  (intSlice binary 8 38).bind fun mmsi =>
  (intSlice binary 46 56).bind fun sograw =>
  (intSlice binary 56 57).bind fun acc =>
  (intSlice binary 112 124).bind fun cograw =>
  (intSlice binary 124 133).bind fun hdg =>
  (intSlice binary 133 139).bind fun ts =>
  some { msg_type := mt, repeat_ind := some rpt, mmsi := some mmsi,
         sog := some ((sograw : ℚ) / 10),
         pos_accuracy := some (acc != 0),
         longitude := some (lonFromRaw raw_lon),
         latitude := some (latFromRaw raw_lat),
         cog := some ((cograw : ℚ) / 10),
         true_heading := some hdg, timestamp := some ts }

/-- The `msg_type == 24` branch of `decode_payload` (Static Data
Report), with its `part_no` sub-dispatch. -/
def decodeType24 (binary : List Char) (mt : Int) : Option Decoded :=
  (intSlice binary 6 8).bind fun rpt =>
  (intSlice binary 8 38).bind fun mmsi =>
  (intSlice binary 38 40).bind fun pn =>
  if pn = 0 then
    (decode_string (pySlice binary 40 160)).bind fun sn =>
    some { msg_type := mt, repeat_ind := some rpt, mmsi := some mmsi,
           part_no := some pn, shipname := some sn }
  else if pn = 1 then
    (intSlice binary 40 48).bind fun stype =>
    (decode_string (pySlice binary 48 90)).bind fun vendor =>
    (decode_string (pySlice binary 90 132)).bind fun callsign =>
    (intSlice binary 132 141).bind fun tb =>
    (intSlice binary 141 150).bind fun tst =>
    (intSlice binary 150 156).bind fun tp =>
    (intSlice binary 156 162).bind fun tsb =>
    some { msg_type := mt, repeat_ind := some rpt, mmsi := some mmsi,
           part_no := some pn, ship_type := some stype,
           vendor_id := some vendor, callsign := some callsign,
           to_bow := some tb, to_stern := some tst, to_port := some tp,
           to_starboard := some tsb }
  else
    some { msg_type := mt, repeat_ind := some rpt, mmsi := some mmsi,
           part_no := some pn }

/-- `AISMQTTBridge.decode_payload`: armor the payload into the binary
string, read the message type from its first six characters, dispatch.
`none` is the `except` path (`return None`). -/
def decode_payload (payload : List Char) : Option Decoded :=
  let binary := armorBits payload
  (intSlice binary 0 6).bind fun mt =>
  if mt ∈ ([1, 2, 3] : List Int) then decodeType123 binary mt
  else if mt = 5 then decodeType5 binary mt
  else if mt = 18 then decodeType18 binary mt
  else if mt = 24 then decodeType24 binary mt
  else some { msg_type := mt }

/-- The parsed-sentence dictionary built by `parse_nmea`. -/
structure Parsed where
  message_type : List Char
  fragment_count : Int
  fragment_number : Int
  message_id : List Char
  channel : List Char
  payload : List Char
  fill_bits : Int
  checksum : List Char
  decoded : Option Decoded
deriving DecidableEq

/-- `AISMQTTBridge.parse_nmea`: structural validation and positional
field extraction of one AIVDM/AIVDO line, then payload decoding.  The
`if decoded_data:` guard of the source collapses to attaching
`decode_payload` directly, since a returned dictionary always contains
the `msg_type` key and is therefore never falsy. -/
def parse_nmea (line : List Char) : Option Parsed :=
  if line.head? = some '!' then
    let parts := pySplit line '*'
    if parts.length ≠ 2 then none
    else
      let message_body := parts.getD 0 []
      let checksum := parts.getD 1 []
      let fields := pySplit message_body ','
      if fields.length < 7 then none
      else
        (pyIntDec (fields.getD 1 [])).bind fun fc =>
        (pyIntDec (fields.getD 2 [])).bind fun fn =>
        (if fields.getD 6 [] = [] then some 0
         else pyIntDec (fields.getD 6 [])).bind fun fb =>
        some { message_type := fields.getD 0 [], fragment_count := fc,
               fragment_number := fn, message_id := fields.getD 3 [],
               channel := fields.getD 4 [], payload := fields.getD 5 [],
               fill_bits := fb, checksum := checksum,
               decoded := decode_payload (fields.getD 5 []) }
  else none

/-- The spec's signed-field rule (§4.2): for an N-bit two's-complement
field with raw unsigned value `r` and threshold `T = 2^(N-1)`, the true
value is `-(2^N - r)` when `r ≥ T` and `r` otherwise. -/
def signedSpec (N : Nat) (r : Int) : Int :=
  if r ≥ 2 ^ (N - 1) then -(2 ^ N - r) else r

/-- One binary digit character, chosen by parity. -/
def bitChar (n : Nat) : Char := if n % 2 = 1 then '1' else '0'

/-- The spec's fixed-width encoding (§4.1): a 6-bit unsigned value,
most-significant-bit first. -/
def bits6 (v : Nat) : List Char :=
  [bitChar (v / 32), bitChar (v / 16), bitChar (v / 8), bitChar (v / 4),
   bitChar (v / 2), bitChar v]

/-- The spec's `armor_to_bits` output (§4.1): each character contributes
its 6-bit value, most-significant-bit first, in input order. -/
def specArmor : List Char → List Char
  | [] => []
  | c :: rest => bits6 (charVal c).toNat ++ specArmor rest

/-- Minimum bit length required by a dispatched message type, per the
spec's field table (§4.2): the end of the last extracted field (for
type 24, of the larger Part B variant's last field; for unrecognized
types only the 6 type bits themselves). -/
def minBitsSpec (mt : Int) : Nat :=
  if mt = 1 ∨ mt = 2 ∨ mt = 3 then 143
  else if mt = 5 then 270
  else if mt = 18 then 139
  else if mt = 24 then 162
  else 6

/-- The comma-separated fields of the part of a line before the first
`*`, as `parse_nmea` extracts them. -/
def bodyFields (line : List Char) : List (List Char) :=
  pySplit ((pySplit line '*').getD 0 []) ','

/-- Structural violations that `parse_nmea` rejects: no leading `!`,
not exactly one `*`, fewer than seven comma-separated body fields, or a
fragment-count, fragment-number or non-empty fill-bits field that does
not parse as an integer. -/
def structuralViolation (line : List Char) : Prop :=
  line.head? ≠ some '!' ∨
  line.count '*' ≠ 1 ∨
  (bodyFields line).length < 7 ∨
  pyIntDec ((bodyFields line).getD 1 []) = none ∨
  pyIntDec ((bodyFields line).getD 2 []) = none ∨
  ((bodyFields line).getD 6 [] ≠ [] ∧ pyIntDec ((bodyFields line).getD 6 []) = none)

instance (line : List Char) : Decidable (structuralViolation line) := by
  unfold structuralViolation
  infer_instance

/-- A 28-character type-1 payload whose 28-bit raw longitude field is
`0x7FFFFFF` (all other fields zero). -/
def cexPayload : List Char := "1000000000?wwwv0000000000000".toList

/-- The dictionary `decode_payload` produces for `cexPayload`: its
longitude is `0x7FFFFFF / 600000 ≈ 223.7` degrees. -/
def cexDecoded : Decoded :=
  { msg_type := 1, repeat_ind := some 0, mmsi := some 0, nav_status := some 0,
    rot := some 0, sog := some (((0 : Int) : ℚ) / 10),
    pos_accuracy := some false,
    longitude := some (((134217727 : Int) : ℚ) / 600000),
    latitude := some (((0 : Int) : ℚ) / 600000),
    cog := some (((0 : Int) : ℚ) / 10), true_heading := some 0,
    timestamp := some 0 }

/-- A structurally valid sentence whose payload field is empty, so that
payload decoding fails while sentence parsing succeeds. -/
def witLine : List Char := "!AIVDM,1,1,,A,,0*5C".toList

/-- The dictionary `parse_nmea` produces for `witLine`: all raw fields,
no decoded payload. -/
def witParsed : Parsed :=
  { message_type := "!AIVDM".toList, fragment_count := 1,
    fragment_number := 1, message_id := [], channel := ['A'], payload := [],
    fill_bits := 0, checksum := "5C".toList, decoded := none }

/-- A valid sentence with payload `w` (message type 63). -/
def witLineA : List Char := "!AIVDM,1,1,,A,w,0*5C".toList

/-- The dictionary `parse_nmea` produces for `witLineA`. -/
def witParsedA : Parsed :=
  { message_type := "!AIVDM".toList, fragment_count := 1,
    fragment_number := 1, message_id := [], channel := ['A'],
    payload := ['w'], fill_bits := 0, checksum := "5C".toList,
    decoded := some { msg_type := 63 } }

/-- A sentence with the same payload `w` as `witLineA` but different
tag, fragment count/number, message id, channel, fill bits and
checksum. -/
def witLineB : List Char := "!AIVDO,2,9,7,B,w,5*FF".toList

/-- The dictionary `parse_nmea` produces for `witLineB`. -/
def witParsedB : Parsed :=
  { message_type := "!AIVDO".toList, fragment_count := 2,
    fragment_number := 9, message_id := ['7'], channel := ['B'],
    payload := ['w'], fill_bits := 5, checksum := "FF".toList,
    decoded := some { msg_type := 63 } }

/-! ### Helper lemmas: binary numeral parsing -/

theorem parseBinCore_bound : ∀ (l : List Char) (acc n : Nat),
    parseBinCore acc l = some n →
    acc * 2 ^ l.length ≤ n ∧ n < (acc + 1) * 2 ^ l.length := by
  intro l
  induction l with
  | nil =>
    intro acc n h
    simp only [parseBinCore, Option.some.injEq] at h
    subst h
    simp
  | cons c rest ih =>
    intro acc n h
    simp only [parseBinCore] at h
    by_cases h0 : c = '0'
    · simp only [h0, if_pos rfl] at h
      have hb := ih (2 * acc) n h
      simp only [List.length_cons, pow_succ]
      constructor <;> nlinarith [hb.1, hb.2]
    · by_cases h1 : c = '1'
      · simp only [h0, h1, if_neg, if_pos rfl, ite_true, ite_false] at h
        have hb := ih (2 * acc + 1) n h
        simp only [List.length_cons, pow_succ]
        constructor <;> nlinarith [hb.1, hb.2]
      · simp [h0, h1] at h

theorem parseBinNat_lt (s : List Char) (n : Nat) (h : parseBinNat s = some n) :
    n < 2 ^ s.length := by
  unfold parseBinNat at h
  by_cases he : s = []
  · simp [he] at h
  · simp only [he, if_neg, ite_false] at h
    have := (parseBinCore_bound s 0 n h).2
    simpa using this

theorem parseBinNat_ne_nil (s : List Char) (n : Nat)
    (h : parseBinNat s = some n) : s ≠ [] := by
  intro he
  rw [he] at h
  simp [parseBinNat] at h

theorem pyIntBin_bounds (s : List Char) (r : Int) (h : pyIntBin s = some r) :
    -(2 ^ (s.length - 1) : Int) < r ∧ r < 2 ^ s.length := by
  unfold pyIntBin at h
  by_cases hm : s.head? = some '-'
  · rw [if_pos hm] at h
    cases hn : parseBinNat (s.drop 1) with
    | none => rw [hn] at h; exact absurd h (by simp)
    | some n =>
      rw [hn] at h
      have hr : r = -(n : Int) := by
        simpa using h.symm
      have hlt := parseBinNat_lt _ _ hn
      have hlen : (s.drop 1).length = s.length - 1 := by simp
      rw [hlen] at hlt
      have hcast : (n : Int) < 2 ^ (s.length - 1) := by
        calc (n : Int) < ((2 ^ (s.length - 1) : Nat) : Int) := by exact_mod_cast hlt
          _ = 2 ^ (s.length - 1) := by push_cast; ring
      have h2 : (0 : Int) < 2 ^ s.length := by positivity
      constructor
      · omega
      · omega
  · rw [if_neg hm] at h
    cases hn : parseBinNat s with
    | none => rw [hn] at h; exact absurd h (by simp)
    | some n =>
      rw [hn] at h
      have hr : r = (n : Int) := by simpa using h.symm
      have hlt := parseBinNat_lt _ _ hn
      have hcast : (n : Int) < 2 ^ s.length := by
        calc (n : Int) < ((2 ^ s.length : Nat) : Int) := by exact_mod_cast hlt
          _ = 2 ^ s.length := by push_cast; ring
      have h2 : (0 : Int) < 2 ^ (s.length - 1) := by positivity
      constructor
      · omega
      · omega

theorem pySlice_length_le (s : List Char) (a b : Nat) :
    (pySlice s a b).length ≤ b - a := by
  unfold pySlice
  simp [List.length_take]

theorem intSlice_bounds (binary : List Char) (a b : Nat) (r : Int) (hab : a < b)
    (h : intSlice binary a b = some r) :
    -(2 ^ (b - a - 1) : Int) < r ∧ r < 2 ^ (b - a) := by
  unfold intSlice at h
  have hlen := pySlice_length_le binary a b
  have hb := pyIntBin_bounds _ _ h
  have h1 : (2 : Int) ^ (pySlice binary a b).length ≤ 2 ^ (b - a) :=
    pow_le_pow_right₀ (by omega) hlen
  have h2 : (2 : Int) ^ ((pySlice binary a b).length - 1) ≤ 2 ^ (b - a - 1) :=
    pow_le_pow_right₀ (by omega) (by omega)
  constructor
  · have := hb.1
    omega
  · have := hb.2
    omega

/-! ### Helper lemmas: coordinate scaling -/

theorem lonFromRaw_eq_signedSpec (raw : Int) :
    lonFromRaw raw = ((signedSpec 28 raw : Int) : ℚ) / 600000 := by
  unfold lonFromRaw signedSpec
  by_cases h : raw ≥ 0x8000000
  · rw [if_pos h, if_pos (by norm_num at h ⊢; omega)]
    push_cast
    ring
  · rw [if_neg h, if_neg (by norm_num at h ⊢; omega)]

theorem latFromRaw_eq_signedSpec (raw : Int) :
    latFromRaw raw = ((signedSpec 27 raw : Int) : ℚ) / 600000 := by
  unfold latFromRaw signedSpec
  by_cases h : raw ≥ 0x4000000
  · rw [if_pos h, if_pos (by norm_num at h ⊢; omega)]
    push_cast
    ring
  · rw [if_neg h, if_neg (by norm_num at h ⊢; omega)]

theorem lonFromRaw_bounds (raw : Int) (h1 : -(2 ^ 27 : Int) < raw)
    (h2 : raw < 2 ^ 28) :
    -(134217728 : ℚ) / 600000 ≤ lonFromRaw raw ∧
      lonFromRaw raw < (134217728 : ℚ) / 600000 := by
  have hd : (0 : ℚ) < 600000 := by norm_num
  unfold lonFromRaw
  by_cases h : raw ≥ 0x8000000
  · rw [if_pos h]
    norm_num at h
    have hq1 : (134217728 : ℚ) ≤ (raw : ℚ) := by exact_mod_cast h
    have hq2 : (raw : ℚ) < 268435456 := by exact_mod_cast (by norm_num at h2 ⊢; omega : raw < (268435456 : Int))
    constructor
    · rw [div_le_div_iff_of_pos_right hd]
      linarith
    · rw [div_lt_div_iff_of_pos_right hd]
      linarith
  · rw [if_neg h]
    norm_num at h
    have hq1 : (raw : ℚ) < 134217728 := by exact_mod_cast h
    have hq2 : -(134217728 : ℚ) ≤ (raw : ℚ) := by
      have : -(134217728 : Int) ≤ raw := by norm_num at h1 ⊢; omega
      exact_mod_cast this
    constructor
    · rw [div_le_div_iff_of_pos_right hd]
      linarith
    · rw [div_lt_div_iff_of_pos_right hd]
      linarith

theorem latFromRaw_bounds (raw : Int) (h1 : -(2 ^ 26 : Int) < raw)
    (h2 : raw < 2 ^ 27) :
    -(67108864 : ℚ) / 600000 ≤ latFromRaw raw ∧
      latFromRaw raw < (67108864 : ℚ) / 600000 := by
  have hd : (0 : ℚ) < 600000 := by norm_num
  unfold latFromRaw
  by_cases h : raw ≥ 0x4000000
  · rw [if_pos h]
    norm_num at h
    have hq1 : (67108864 : ℚ) ≤ (raw : ℚ) := by exact_mod_cast h
    have hq2 : (raw : ℚ) < 134217728 := by exact_mod_cast (by norm_num at h2 ⊢; omega : raw < (134217728 : Int))
    constructor
    · rw [div_le_div_iff_of_pos_right hd]
      linarith
    · rw [div_lt_div_iff_of_pos_right hd]
      linarith
  · rw [if_neg h]
    norm_num at h
    have hq1 : (raw : ℚ) < 67108864 := by exact_mod_cast h
    have hq2 : -(67108864 : ℚ) ≤ (raw : ℚ) := by
      have : -(67108864 : Int) ≤ raw := by norm_num at h1 ⊢; omega
      exact_mod_cast this
    constructor
    · rw [div_le_div_iff_of_pos_right hd]
      linarith
    · rw [div_lt_div_iff_of_pos_right hd]
      linarith

/-! ### Helper lemmas: armoring -/

theorem natBinGo_length_ge : ∀ (fuel n k : Nat), n < fuel → 2 ^ k ≤ n →
    k + 1 ≤ (natBinGo fuel n).length := by
  intro fuel
  induction fuel with
  | zero => intro n k h _; omega
  | succ fuel ih =>
    intro n k hfuel hk
    unfold natBinGo
    by_cases h2 : n < 2
    · rw [if_pos h2]
      have : k = 0 := by
        by_contra hne
        have : 2 ≤ 2 ^ k := Nat.one_lt_two_pow (by omega)
        omega
      simp [this]
    · rw [if_neg h2]
      rcases k with _ | k
      · simp
      · have hdiv : 2 ^ k ≤ n / 2 := by
          rw [Nat.le_div_iff_mul_le (by omega)]
          calc 2 ^ k * 2 = 2 ^ (k + 1) := by ring
            _ ≤ n := hk
        have hlt : n / 2 < fuel := by
          have := Nat.div_lt_self (by omega : 0 < n) (by omega : 1 < 2)
          omega
        have := ih (n / 2) k hlt hdiv
        simp only [List.length_append, List.length_cons, List.length_nil]
        omega

theorem natBin_length_ge (n k : Nat) (hk : 2 ^ k ≤ n) :
    k + 1 ≤ (natBin n).length :=
  natBinGo_length_ge (n + 1) n k (by omega) hk

theorem padZero_bits6_of_lt : ∀ n : Nat, n < 64 → padZero 6 (natBin n) = bits6 n := by
  decide

theorem format06b_valid_eq_bits6 (v : Int) (h0 : 0 ≤ v) (h63 : v ≤ 63) :
    format06b v = bits6 v.toNat := by
  unfold format06b
  rw [if_neg (by omega)]
  exact padZero_bits6_of_lt v.toNat (by omega)

theorem bits6_length (n : Nat) : (bits6 n).length = 6 := by
  simp [bits6]

theorem format06b_valid_length (v : Int) (h0 : 0 ≤ v) (h63 : v ≤ 63) :
    (format06b v).length = 6 := by
  rw [format06b_valid_eq_bits6 v h0 h63, bits6_length]

theorem format06b_big_length (v : Int) (h : 63 < v) :
    7 ≤ (format06b v).length := by
  unfold format06b
  rw [if_neg (by omega)]
  have h64 : 2 ^ 6 ≤ v.toNat := by omega
  have := natBin_length_ge v.toNat 6 h64
  unfold padZero
  simp only [List.length_append, List.length_replicate]
  omega

theorem format06b_neg_head (v : Int) (h : v < 0) :
    (format06b v).head? = some '-' := by
  unfold format06b
  rw [if_pos h]
  rfl

theorem specArmor_length : ∀ p : List Char, (specArmor p).length = 6 * p.length := by
  intro p
  induction p with
  | nil => rfl
  | cons c rest ih =>
    simp only [specArmor, List.length_append, bits6_length, ih, List.length_cons]
    ring

theorem armorBits_valid_eq_spec : ∀ p : List Char,
    (∀ c ∈ p, 0 ≤ charVal c ∧ charVal c ≤ 63) → armorBits p = specArmor p := by
  intro p
  induction p with
  | nil => intro _; rfl
  | cons c rest ih =>
    intro h
    have hc := h c (by simp)
    simp only [armorBits, specArmor]
    rw [format06b_valid_eq_bits6 (charVal c) hc.1 hc.2,
      ih (fun d hd => h d (by simp [hd]))]

theorem armorBits_valid_length (p : List Char)
    (h : ∀ c ∈ p, 0 ≤ charVal c ∧ charVal c ≤ 63) :
    (armorBits p).length = 6 * p.length := by
  rw [armorBits_valid_eq_spec p h, specArmor_length]

/-! ### Helper lemmas: splitting and stripping -/

theorem pySplit_length (sep : Char) : ∀ s : List Char,
    (pySplit s sep).length = s.count sep + 1 := by
  intro s
  induction s with
  | nil => rfl
  | cons c rest ih =>
    simp only [pySplit]
    by_cases hc : c = sep
    · subst hc
      rw [if_pos rfl]
      simp [List.count_cons, ih]
    · rw [if_neg hc]
      cases hr : pySplit rest sep with
      | nil =>
        rw [hr] at ih
        simp at ih
      | cons h t =>
        rw [hr] at ih
        simp only [List.length_cons] at ih ⊢
        simp [List.count_cons, hc, ih]

theorem mem_of_mem_dropWhile (p : Char → Bool) :
    ∀ (l : List Char) (c : Char), c ∈ List.dropWhile p l → c ∈ l := by
  intro l
  induction l with
  | nil => intro c h; simp at h
  | cons a rest ih =>
    intro c h
    rw [List.dropWhile_cons] at h
    by_cases ha : p a = true
    · rw [if_pos ha] at h
      exact List.mem_cons_of_mem a (ih c h)
    · rw [if_neg ha] at h
      exact h

theorem head_dropWhile_false (p : Char → Bool) :
    ∀ (l : List Char) (c : Char), (List.dropWhile p l).head? = some c →
      p c = false := by
  intro l
  induction l with
  | nil => intro c h; simp at h
  | cons a rest ih =>
    intro c h
    rw [List.dropWhile_cons] at h
    by_cases ha : p a = true
    · rw [if_pos ha] at h
      exact ih c h
    · rw [if_neg ha] at h
      simp only [List.head?_cons, Option.some.injEq] at h
      subst h
      simpa using ha

theorem dropLast_dropWhile_subset (p : Char → Bool) :
    ∀ (l : List Char) (c : Char), c ∈ (List.dropWhile p l).dropLast →
      c ∈ l.dropLast := by
  intro l
  induction l with
  | nil => intro c h; simp at h
  | cons a rest ih =>
    intro c h
    rw [List.dropWhile_cons] at h
    by_cases ha : p a = true
    · rw [if_pos ha] at h
      have hr := ih c h
      cases rest with
      | nil => simp at hr
      | cons b rs =>
        simp only [List.dropLast_cons₂] at hr ⊢
        exact List.mem_cons_of_mem a hr
    · rw [if_neg ha] at h
      exact h

theorem mem_stripBoth (p : Char → Bool) (l : List Char) (c : Char)
    (h : c ∈ stripBoth p l) : c ∈ l := by
  unfold stripBoth at h
  rw [List.mem_reverse] at h
  have h1 := mem_of_mem_dropWhile p _ c h
  rw [List.mem_reverse] at h1
  exact mem_of_mem_dropWhile p l c h1

theorem stripBoth_at_free (l : List Char)
    (h : ∀ c ∈ l.dropLast, c ≠ '@') :
    ∀ c ∈ stripBoth (fun c => c = '@') l, c ≠ '@' := by
  intro c hc
  unfold stripBoth at hc
  rw [List.mem_reverse] at hc
  set p : Char → Bool := fun c => c = '@' with hp
  have hu : ∀ d ∈ (List.dropWhile p l).dropLast, d ≠ '@' := by
    intro d hd
    exact h d (dropLast_dropWhile_subset p l d hd)
  set u : List Char := List.dropWhile p l with hdef
  cases hrev : u.reverse with
  | nil =>
    rw [hrev] at hc
    simp at hc
  | cons a m =>
    have hum : u = m.reverse ++ [a] := by
      have := congrArg List.reverse hrev
      simpa using this
    have hmem : ∀ d ∈ m, d ≠ '@' := by
      intro d hd
      apply hu
      rw [hum, List.dropLast_concat, List.mem_reverse]
      exact hd
    rw [hrev] at hc
    rw [List.dropWhile_cons] at hc
    by_cases hpa : p a = true
    · rw [if_pos hpa] at hc
      exact hmem c (mem_of_mem_dropWhile p m c hc)
    · rw [if_neg hpa] at hc
      rcases List.mem_cons.mp hc with hca | hcm
      · subst hca
        intro hfalse
        rw [hp] at hpa
        simp [hfalse] at hpa
      · exact hmem c hcm

theorem stripBoth_last_false (p : Char → Bool) (l : List Char) (c : Char)
    (h : (stripBoth p l).reverse.head? = some c) : p c = false := by
  unfold stripBoth at h
  rw [List.reverse_reverse] at h
  exact head_dropWhile_false p _ c h

/-! ### Helper lemmas: the decode_string loop -/

theorem parseBinCore_bits_isSome :
    ∀ (l : List Char) (acc : Nat), (∀ c ∈ l, c = '0' ∨ c = '1') →
      ∃ n, parseBinCore acc l = some n := by
  intro l
  induction l with
  | nil => intro acc _; exact ⟨acc, rfl⟩
  | cons c rest ih =>
    intro acc h
    rcases h c (by simp) with hc | hc <;> subst hc
    · simpa [parseBinCore] using ih (2 * acc) (fun d hd => h d (by simp [hd]))
    · simpa [parseBinCore] using ih (2 * acc + 1) (fun d hd => h d (by simp [hd]))

theorem pyIntBin_bits (s : List Char) (hne : s ≠ [])
    (h : ∀ c ∈ s, c = '0' ∨ c = '1') :
    ∃ n : Nat, pyIntBin s = some ((n : Int)) ∧ n < 2 ^ s.length := by
  have hhead : s.head? ≠ some '-' := by
    cases s with
    | nil => simp
    | cons c rest =>
      rcases h c (by simp) with hc | hc <;> subst hc <;> simp
  unfold pyIntBin
  rw [if_neg hhead]
  unfold parseBinNat
  rw [if_neg hne]
  obtain ⟨n, hn⟩ := parseBinCore_bits_isSome s 0 h
  refine ⟨n, by rw [hn], ?_⟩
  have := parseBinNat_lt s n (by unfold parseBinNat; rw [if_neg hne]; exact hn)
  exact this

theorem parseBinCore_zero_bits :
    ∀ (l : List Char) (acc : Nat), (∀ c ∈ l, c = '0' ∨ c = '1') →
      parseBinCore acc l = some 0 → ∀ c ∈ l, c = '0' := by
  intro l
  induction l with
  | nil => intro acc _ _ c hc; simp at hc
  | cons c rest ih =>
    intro acc h hp d hd
    rcases h c (by simp) with hc | hc <;> subst hc
    · simp only [parseBinCore, if_pos rfl] at hp
      rcases List.mem_cons.mp hd with hdc | hdr
      · exact hdc
      · exact ih (2 * acc) (fun e he => h e (by simp [he])) hp d hdr
    · simp only [parseBinCore] at hp
      simp at hp
      have := (parseBinCore_bound rest (2 * acc + 1) 0 hp).1
      have h2 : (0 : Nat) < 2 ^ rest.length := Nat.pos_pow_of_pos _ (by omega)
      nlinarith

theorem decodeStringGo_nil (fuel : Nat) : decodeStringGo fuel [] = some [] := by
  cases fuel <;> rfl

theorem decodeStringGo_bits_isSome :
    ∀ (fuel : Nat) (s : List Char), (∀ c ∈ s, c = '0' ∨ c = '1') →
      ∃ t, decodeStringGo fuel s = some t := by
  intro fuel
  induction fuel with
  | zero => intro s _; exact ⟨[], rfl⟩
  | succ fuel ih =>
    intro s h
    by_cases hs : s = []
    · subst hs
      exact ⟨[], rfl⟩
    · simp only [decodeStringGo, if_neg hs]
      by_cases hg : s.take 6 = ['0', '0', '0', '0', '0', '0']
      · rw [if_pos hg]
        exact ⟨[], rfl⟩
      · rw [if_neg hg]
        have htne : s.take 6 ≠ [] := by
          cases s with
          | nil => exact absurd rfl hs
          | cons a rest => simp [List.take_cons]
        obtain ⟨n, hn, _⟩ := pyIntBin_bits (s.take 6) htne
          (fun c hc => h c (List.take_subset 6 s hc))
        rw [hn]
        obtain ⟨t, ht⟩ := ih (s.drop 6) (fun c hc => h c (List.drop_subset 6 s hc))
        rw [ht]
        exact ⟨_, rfl⟩

theorem pyChr_ne_at : ∀ k : Nat, k < 96 → k ≠ 64 → Char.ofNat k ≠ '@' := by
  decide

theorem decodeStringGo_dropLast_at_free :
    ∀ (fuel : Nat) (s t : List Char), (∀ c ∈ s, c = '0' ∨ c = '1') →
      decodeStringGo fuel s = some t → ∀ c ∈ t.dropLast, c ≠ '@' := by
  intro fuel
  induction fuel with
  | zero =>
    intro s t _ ht c hc
    simp only [decodeStringGo, Option.some.injEq] at ht
    subst ht
    simp at hc
  | succ fuel ih =>
    intro s t h ht c hc
    by_cases hs : s = []
    · subst hs
      simp only [decodeStringGo_nil, Option.some.injEq] at ht
      subst ht
      simp at hc
    · simp only [decodeStringGo, if_neg hs] at ht
      by_cases hg : s.take 6 = ['0', '0', '0', '0', '0', '0']
      · rw [if_pos hg] at ht
        simp only [Option.some.injEq] at ht
        subst ht
        simp at hc
      · rw [if_neg hg] at ht
        have htne : s.take 6 ≠ [] := by
          cases s with
          | nil => exact absurd rfl hs
          | cons a rest => simp [List.take_cons]
        obtain ⟨n, hn, hlt⟩ := pyIntBin_bits (s.take 6) htne
          (fun d hd => h d (List.take_subset 6 s hd))
        rw [hn] at ht
        cases hrest : decodeStringGo fuel (s.drop 6) with
        | none => rw [hrest] at ht; exact absurd ht (by simp)
        | some rest =>
          rw [hrest] at ht
          simp only [Option.some.injEq] at ht
          subst ht
          cases hrnil : rest with
          | nil => simp [hrnil] at hc
          | cons r rs =>
            rw [hrnil, List.dropLast_cons₂] at hc
            rcases List.mem_cons.mp hc with hcx | hcr
            · subst hcx
              have hdrop : s.drop 6 ≠ [] := by
                intro hdn
                rw [hdn, decodeStringGo_nil] at hrest
                simp only [Option.some.injEq] at hrest
                rw [← hrest] at hrnil
                exact absurd hrnil.symm (List.cons_ne_nil r rs)
              have hlen6 : (s.take 6).length = 6 := by
                rw [List.length_take]
                have : ¬ s.length ≤ 6 := fun hle => hdrop (List.drop_eq_nil_of_le hle)
                omega
              have hn0 : n ≠ 0 := by
                intro hz
                subst hz
                have hh2 : (s.take 6).head? ≠ some '-' := by
                  cases hts : s.take 6 with
                  | nil => simp
                  | cons a r =>
                    have ha : a ∈ s.take 6 := by
                      rw [hts]
                      exact List.mem_cons_self a r
                    rcases h a (List.take_subset 6 s ha) with h0 | h0 <;>
                      (subst h0; simp)
                have hinner : parseBinCore 0 (s.take 6) = some 0 := by
                  unfold pyIntBin at hn
                  rw [if_neg hh2] at hn
                  cases hpn : parseBinNat (s.take 6) with
                  | none => rw [hpn] at hn; exact absurd hn (by simp)
                  | some m =>
                    rw [hpn] at hn
                    have hm0 : m = 0 := by simpa using hn
                    unfold parseBinNat at hpn
                    rw [if_neg htne] at hpn
                    rw [hm0] at hpn
                    exact hpn
                have hall := parseBinCore_zero_bits (s.take 6) 0
                  (fun d hd => h d (List.take_subset 6 s hd)) hinner
                apply hg
                have hrep : s.take 6 = List.replicate 6 '0' := by
                  apply List.eq_replicate_of_mem at hall
                  rw [hall, hlen6]
                rw [hrep]
                rfl
              rw [hlen6] at hlt
              have hn63 : n ≤ 63 := by omega
              by_cases h32 : (n : Int) < 32
              · rw [if_pos h32]
                have hw : ((n : Int) + 64).toNat ≠ 64 := by omega
                have hw96 : ((n : Int) + 64).toNat < 96 := by omega
                exact pyChr_ne_at _ hw96 hw
              · rw [if_neg h32]
                have hw : ((n : Int)).toNat ≠ 64 := by omega
                have hw96 : ((n : Int)).toNat < 96 := by omega
                exact pyChr_ne_at _ hw96 hw
            · exact ih (s.drop 6) rest
                (fun d hd => h d (List.drop_subset 6 s hd))
                hrest c (by rw [hrnil]; exact hcr)

/-! ### Helper lemmas: sentence parsing -/

theorem bodyFields_eq (line : List Char) :
    bodyFields line = pySplit ((pySplit line '*').getD 0 []) ',' := rfl

theorem parse_nmea_not_none (line : List Char)
    (hnv : ¬ structuralViolation line) : parse_nmea line ≠ none := by
  unfold structuralViolation at hnv
  push_neg at hnv
  obtain ⟨hhead, hcount, h7, h1, h2, h6⟩ := hnv
  rw [bodyFields_eq] at h7 h1 h2 h6
  have hparts : (pySplit line '*').length = 2 := by
    have := pySplit_length '*' line
    omega
  simp only [parse_nmea]
  rw [if_pos hhead, if_neg (by omega : ¬ (pySplit line '*').length ≠ 2),
    if_neg (by omega : ¬ (pySplit ((pySplit line '*').getD 0 []) ',').length < 7)]
  cases hf1 : pyIntDec ((pySplit ((pySplit line '*').getD 0 []) ',').getD 1 []) with
  | none => exact absurd hf1 h1
  | some fc =>
    simp only [Option.some_bind]
    cases hf2 : pyIntDec ((pySplit ((pySplit line '*').getD 0 []) ',').getD 2 []) with
    | none => exact absurd hf2 h2
    | some fn =>
      simp only [Option.some_bind]
      by_cases h6e : (pySplit ((pySplit line '*').getD 0 []) ',').getD 6 [] = []
      · rw [if_pos h6e]
        simp
      · cases hf6 : pyIntDec ((pySplit ((pySplit line '*').getD 0 []) ',').getD 6 []) with
        | none => exact absurd hf6 (h6 h6e)
        | some fb =>
          rw [if_neg h6e]
          simp

theorem parse_nmea_none_of_violation (line : List Char)
    (hv : structuralViolation line) : parse_nmea line = none := by
  simp only [parse_nmea]
  by_cases hhead : line.head? = some '!'
  · rw [if_pos hhead]
    by_cases hparts : (pySplit line '*').length = 2
    · have hcount : line.count '*' = 1 := by
        have := pySplit_length '*' line
        omega
      rw [if_neg (by omega : ¬ (pySplit line '*').length ≠ 2)]
      by_cases h7 : (pySplit ((pySplit line '*').getD 0 []) ',').length < 7
      · rw [if_pos h7]
      · rw [if_neg h7]
        unfold structuralViolation at hv
        rw [bodyFields_eq] at hv
        rcases hv with hv | hv | hv | hv | hv | hv
        · exact absurd hhead hv
        · exact absurd hcount hv
        · exact absurd hv h7
        · rw [hv]
          rfl
        · cases hf1 : pyIntDec ((pySplit ((pySplit line '*').getD 0 []) ',').getD 1 []) with
          | none => rfl
          | some fc =>
            simp only [Option.some_bind]
            rw [hv]
            rfl
        · cases hf1 : pyIntDec ((pySplit ((pySplit line '*').getD 0 []) ',').getD 1 []) with
          | none => rfl
          | some fc =>
            simp only [Option.some_bind]
            cases hf2 : pyIntDec ((pySplit ((pySplit line '*').getD 0 []) ',').getD 2 []) with
            | none => rfl
            | some fn =>
              simp only [Option.some_bind]
              rw [if_neg hv.1, hv.2]
              rfl
    · rw [if_pos (by omega : (pySplit line '*').length ≠ 2)]
  · rw [if_neg hhead]

theorem parse_nmea_none_iff (line : List Char) :
    parse_nmea line = none ↔ structuralViolation line := by
  constructor
  · intro hnone
    by_contra hnv
    exact parse_nmea_not_none line hnv hnone
  · exact parse_nmea_none_of_violation line

theorem parse_nmea_some_fields (line : List Char) (p : Parsed)
    (h : parse_nmea line = some p) :
    p.message_type = (bodyFields line).getD 0 [] ∧
    pyIntDec ((bodyFields line).getD 1 []) = some p.fragment_count ∧
    pyIntDec ((bodyFields line).getD 2 []) = some p.fragment_number ∧
    p.message_id = (bodyFields line).getD 3 [] ∧
    p.channel = (bodyFields line).getD 4 [] ∧
    p.payload = (bodyFields line).getD 5 [] ∧
    ((bodyFields line).getD 6 [] = [] → p.fill_bits = 0) ∧
    ((bodyFields line).getD 6 [] ≠ [] →
      pyIntDec ((bodyFields line).getD 6 []) = some p.fill_bits) ∧
    p.checksum = (pySplit line '*').getD 1 [] ∧
    p.decoded = decode_payload p.payload := by
  rw [bodyFields_eq]
  simp only [parse_nmea] at h
  by_cases hhead : line.head? = some '!'
  · rw [if_pos hhead] at h
    by_cases hparts : (pySplit line '*').length ≠ 2
    · rw [if_pos hparts] at h
      exact absurd h (by simp)
    · rw [if_neg hparts] at h
      by_cases h7 : (pySplit ((pySplit line '*').getD 0 []) ',').length < 7
      · rw [if_pos h7] at h
        exact absurd h (by simp)
      · rw [if_neg h7] at h
        cases hf1 : pyIntDec ((pySplit ((pySplit line '*').getD 0 []) ',').getD 1 []) with
        | none =>
          rw [hf1] at h
          exact absurd h (by simp)
        | some fc =>
          rw [hf1] at h
          simp only [Option.some_bind] at h
          cases hf2 : pyIntDec ((pySplit ((pySplit line '*').getD 0 []) ',').getD 2 []) with
          | none =>
            rw [hf2] at h
            exact absurd h (by simp)
          | some fn =>
            rw [hf2] at h
            simp only [Option.some_bind] at h
            by_cases h6e : (pySplit ((pySplit line '*').getD 0 []) ',').getD 6 [] = []
            · rw [if_pos h6e] at h
              simp only [Option.some_bind, Option.some.injEq] at h
              subst h
              refine ⟨rfl, rfl, rfl, rfl, rfl, rfl, fun _ => rfl,
                fun hc => absurd h6e hc, rfl, rfl⟩
            · rw [if_neg h6e] at h
              cases hf6 : pyIntDec ((pySplit ((pySplit line '*').getD 0 []) ',').getD 6 []) with
              | none =>
                rw [hf6] at h
                exact absurd h (by simp)
              | some fb =>
                rw [hf6] at h
                simp only [Option.some_bind, Option.some.injEq] at h
                subst h
                refine ⟨rfl, rfl, rfl, rfl, rfl, rfl,
                  fun hc => absurd hc h6e, fun _ => rfl, rfl, rfl⟩
  · rw [if_neg hhead] at h
    exact absurd h (by simp)

/-! ### Helper lemmas: decode_payload branch inversion -/

theorem decodeType5_none_of_truncated (binary : List Char) (mt : Int)
    (h : intSlice binary 264 270 = none) : decodeType5 binary mt = none := by
  unfold decodeType5
  cases intSlice binary 6 8 with
  | none => rfl
  | some rpt =>
    simp only [Option.some_bind]
    cases intSlice binary 8 38 with
    | none => rfl
    | some mmsi =>
      simp only [Option.some_bind]
      cases intSlice binary 38 40 with
      | none => rfl
      | some ver =>
        simp only [Option.some_bind]
        cases intSlice binary 40 70 with
        | none => rfl
        | some imo =>
          simp only [Option.some_bind]
          cases decode_string (pySlice binary 70 112) with
          | none => rfl
          | some cs =>
            simp only [Option.some_bind]
            cases decode_string (pySlice binary 112 232) with
            | none => rfl
            | some sn =>
              simp only [Option.some_bind]
              cases intSlice binary 232 240 with
              | none => rfl
              | some stype =>
                simp only [Option.some_bind]
                cases intSlice binary 240 249 with
                | none => rfl
                | some tb =>
                  simp only [Option.some_bind]
                  cases intSlice binary 249 258 with
                  | none => rfl
                  | some tst =>
                    simp only [Option.some_bind]
                    cases intSlice binary 258 264 with
                    | none => rfl
                    | some tp =>
                      simp only [Option.some_bind]
                      rw [h]
                      rfl

theorem decodeType123_some_inv (binary : List Char) (mt : Int) (d : Decoded)
    (h : decodeType123 binary mt = some d) :
    ∃ raw_lon raw_lat,
      intSlice binary 61 89 = some raw_lon ∧
      intSlice binary 89 116 = some raw_lat ∧
      d.longitude = some (lonFromRaw raw_lon) ∧
      d.latitude = some (latFromRaw raw_lat) ∧ d.msg_type = mt := by
  simp only [decodeType123, Option.bind_eq_some, Option.some.injEq] at h
  obtain ⟨raw_lon, hlon, raw_lat, hlat, rpt, h1, mmsi, h2, nav, h3, rot, h4,
    sograw, h5, acc, h6, cograw, h7, hdg, h8, ts, h9, hd⟩ := h
  subst hd
  exact ⟨raw_lon, raw_lat, hlon, hlat, rfl, rfl, rfl⟩

theorem decodeType18_some_inv (binary : List Char) (mt : Int) (d : Decoded)
    (h : decodeType18 binary mt = some d) :
    ∃ raw_lon raw_lat,
      intSlice binary 57 85 = some raw_lon ∧
      intSlice binary 85 112 = some raw_lat ∧
      d.longitude = some (lonFromRaw raw_lon) ∧
      d.latitude = some (latFromRaw raw_lat) ∧ d.msg_type = mt := by
  simp only [decodeType18, Option.bind_eq_some, Option.some.injEq] at h
  obtain ⟨raw_lon, hlon, raw_lat, hlat, rpt, h1, mmsi, h2, sograw, h5, acc, h6,
    cograw, h7, hdg, h8, ts, h9, hd⟩ := h
  subst hd
  exact ⟨raw_lon, raw_lat, hlon, hlat, rfl, rfl, rfl⟩

theorem decodeType5_some_flat (binary : List Char) (mt : Int) (d : Decoded)
    (h : decodeType5 binary mt = some d) :
    d.longitude = none ∧ d.latitude = none ∧ d.msg_type = mt := by
  simp only [decodeType5, Option.bind_eq_some, Option.some.injEq] at h
  obtain ⟨rpt, h1, mmsi, h2, ver, h3, imo, h4, cs, h5, sn, h6, stype, h7,
    tb, h8, tst, h9, tp, h10, tsb, h11, hd⟩ := h
  subst hd
  exact ⟨rfl, rfl, rfl⟩

theorem decodeType24_some_flat (binary : List Char) (mt : Int) (d : Decoded)
    (h : decodeType24 binary mt = some d) :
    d.longitude = none ∧ d.latitude = none ∧ d.msg_type = mt := by
  simp only [decodeType24, Option.bind_eq_some] at h
  obtain ⟨rpt, h1, mmsi, h2, pn, h3, hd⟩ := h
  by_cases hp0 : pn = 0
  · rw [if_pos hp0] at hd
    simp only [Option.bind_eq_some, Option.some.injEq] at hd
    obtain ⟨sn, h4, hd⟩ := hd
    subst hd
    exact ⟨rfl, rfl, rfl⟩
  · rw [if_neg hp0] at hd
    by_cases hp1 : pn = 1
    · rw [if_pos hp1] at hd
      simp only [Option.bind_eq_some, Option.some.injEq] at hd
      obtain ⟨stype, h4, vendor, h5, cs, h6, tb, h7, tst, h8, tp, h9,
        tsb, h10, hd⟩ := hd
      subst hd
      exact ⟨rfl, rfl, rfl⟩
    · rw [if_neg hp1] at hd
      simp only [Option.some.injEq] at hd
      subst hd
      exact ⟨rfl, rfl, rfl⟩

theorem decode_payload_dispatch (p : List Char) (d : Decoded)
    (h : decode_payload p = some d) :
    ∃ mt, intSlice (armorBits p) 0 6 = some mt ∧
      ((mt ∈ ([1, 2, 3] : List Int) ∧ decodeType123 (armorBits p) mt = some d) ∨
       (mt = 5 ∧ decodeType5 (armorBits p) mt = some d) ∨
       (mt = 18 ∧ decodeType18 (armorBits p) mt = some d) ∨
       (mt = 24 ∧ decodeType24 (armorBits p) mt = some d) ∨
       (mt ∉ ([1, 2, 3] : List Int) ∧ mt ≠ 5 ∧ mt ≠ 18 ∧ mt ≠ 24 ∧
         d = { msg_type := mt })) := by
  simp only [decode_payload, Option.bind_eq_some] at h
  obtain ⟨mt, hmt, hd⟩ := h
  refine ⟨mt, hmt, ?_⟩
  by_cases c1 : mt ∈ ([1, 2, 3] : List Int)
  · rw [if_pos c1] at hd
    exact Or.inl ⟨c1, hd⟩
  · rw [if_neg c1] at hd
    by_cases c2 : mt = 5
    · rw [if_pos c2] at hd
      exact Or.inr (Or.inl ⟨c2, hd⟩)
    · rw [if_neg c2] at hd
      by_cases c3 : mt = 18
      · rw [if_pos c3] at hd
        exact Or.inr (Or.inr (Or.inl ⟨c3, hd⟩))
      · rw [if_neg c3] at hd
        by_cases c4 : mt = 24
        · rw [if_pos c4] at hd
          exact Or.inr (Or.inr (Or.inr (Or.inl ⟨c4, hd⟩)))
        · rw [if_neg c4] at hd
          simp only [Option.some.injEq] at hd
          exact Or.inr (Or.inr (Or.inr (Or.inr ⟨c1, c2, c3, c4, hd.symm⟩)))

/-! ### Claim theorems -/

set_option maxRecDepth 40000

/-- Claim C2: for an N-bit signed field with raw unsigned value `r` and
threshold `T = 2^(N-1)`, the decoded value is `-(2^N - r)` when `r ≥ T`
and `r` otherwise, applied before dividing by 600000; the code's
longitude (N=28) and latitude (N=27) conversions equal that rule, and
for N=28 raw `0xFFFFFFF` decodes to `-1`, raw `0` to `0`, and raw
`0x8000000` to the minimum representable value `-2^27`. -/
theorem claim_C2_signed_fields :
    (∀ raw : Int, lonFromRaw raw = ((signedSpec 28 raw : Int) : ℚ) / 600000) ∧
    (∀ raw : Int, latFromRaw raw = ((signedSpec 27 raw : Int) : ℚ) / 600000) ∧
    signedSpec 28 0xFFFFFFF = -1 ∧
    signedSpec 28 0 = 0 ∧
    signedSpec 28 0x8000000 = -(2 ^ 27) := by
  refine ⟨lonFromRaw_eq_signedSpec, latFromRaw_eq_signedSpec, ?_, ?_, ?_⟩
  · unfold signedSpec
    norm_num
  · unfold signedSpec
    norm_num
  · unfold signedSpec
    norm_num

/-- Claim C4, counterexample: the character `~` maps to 70, outside
`[0, 63]`, yet `decode_payload` does not fail on the payload `"~"` —
it decodes it as an `Unrecognized` message of type 35. -/
theorem claim_C4_counterexample :
    63 < charVal '~' ∧ decode_payload ['~'] = some { msg_type := 35 } :=
  ⟨by decide, by decide⟩

/-- Claim C4, amended: the armoring loop performs no range validation.
A character whose mapped value exceeds 63 contributes a group of more
than 6 binary digits, a character with a negative mapped value
contributes a sign-prefixed group, and decoding a payload containing an
out-of-range character can still succeed. -/
theorem claim_C4_no_validation :
    (∀ c : Char, 63 < charVal c → 7 ≤ (format06b (charVal c)).length) ∧
    (∀ c : Char, charVal c < 0 → (format06b (charVal c)).head? = some '-') ∧
    (decode_payload ['~']).isSome = true :=
  ⟨fun c hc => format06b_big_length (charVal c) hc,
   fun c hc => format06b_neg_head (charVal c) hc, by decide⟩

/-- Claim C4, witness for the amended claim at the character `~`. -/
theorem claim_C4_witness : 7 ≤ (format06b (charVal '~')).length :=
  claim_C4_no_validation.1 '~' (by decide)

/-- Claim C6: for payloads whose characters all map into `[0, 63]`, the
armoring output is exactly the concatenation, in input order, of each
character's fixed-width 6-bit most-significant-bit-first encoding, and
its length is exactly 6 times the character count. -/
theorem claim_C6_armor_bits (p : List Char)
    (hvalid : ∀ c ∈ p, 0 ≤ charVal c ∧ charVal c ≤ 63) :
    armorBits p = specArmor p ∧ (armorBits p).length = 6 * p.length :=
  ⟨armorBits_valid_eq_spec p hvalid, armorBits_valid_length p hvalid⟩

/-- Claim C6, witness at the payload `"15Mw"`. -/
theorem claim_C6_witness :
    armorBits ("15Mw".toList) = specArmor ("15Mw".toList) ∧
    (armorBits ("15Mw".toList)).length = 6 * ("15Mw".toList).length :=
  claim_C6_armor_bits ("15Mw".toList) (by decide)

/-- Claim C8: a payload whose first six bits parse to a message type
outside {1, 2, 3, 5, 18, 24} does not fail: `decode_payload` returns a
dictionary carrying only that message type. -/
theorem claim_C8_unrecognized (p : List Char) (mt : Int)
    (hmt : intSlice (armorBits p) 0 6 = some mt)
    (hnot : mt ∉ ([1, 2, 3, 5, 18, 24] : List Int)) :
    decode_payload p = some { msg_type := mt } := by
  simp only [List.mem_cons, List.not_mem_nil, or_false] at hnot
  push_neg at hnot
  obtain ⟨n1, n2, n3, n5, n18, n24⟩ := hnot
  simp only [decode_payload]
  rw [hmt]
  simp only [Option.some_bind]
  rw [if_neg (by simp [n1, n2, n3]), if_neg n5, if_neg n18, if_neg n24]

/-- Claim C8, witness: the payload `"w"` has message type 63 and
decodes to the minimal dictionary. -/
theorem claim_C8_witness : decode_payload ['w'] = some { msg_type := 63 } :=
  claim_C8_unrecognized ['w'] 63 (by decide) (by decide)

/-- Claim C1, counterexample: a 23-character type-1 payload yields a
138-bit bitstream, shorter than the 143 bits the type-1 field table
requires, yet `decode_payload` succeeds instead of failing — the final
timestamp field is read from a truncated one-bit slice. -/
theorem claim_C1_counterexample :
    intSlice (armorBits (List.replicate 23 '1')) 0 6 = some 1 ∧
    (armorBits (List.replicate 23 '1')).length < minBitsSpec 1 ∧
    (decode_payload (List.replicate 23 '1')).isSome = true :=
  ⟨by decide, by decide, by decide⟩

/-- Claim C1, amended: for message type 5 the guarantee holds — a
valid-alphabet payload whose bitstream is shorter than the required 270
bits always fails to decode (the slice of its last field is empty); for
types 1/2/3 and 18 a payload shorter than the required minimum may
still decode, as the counterexample shows. -/
theorem claim_C1_type5_truncation (p : List Char)
    (hvalid : ∀ c ∈ p, 0 ≤ charVal c ∧ charVal c ≤ 63)
    (hmt : intSlice (armorBits p) 0 6 = some 5)
    (hlen : (armorBits p).length < minBitsSpec 5) :
    decode_payload p = none := by
  have hlen6 : (armorBits p).length = 6 * p.length := armorBits_valid_length p hvalid
  have h264 : (armorBits p).length ≤ 264 := by
    have h270 : minBitsSpec 5 = 270 := by decide
    rw [h270] at hlen
    omega
  have hnone : intSlice (armorBits p) 264 270 = none := by
    unfold intSlice pySlice
    rw [List.drop_eq_nil_of_le h264]
    rfl
  simp only [decode_payload]
  rw [hmt]
  simp only [Option.some_bind]
  rw [if_neg (by decide : ¬ (5 : Int) ∈ ([1, 2, 3] : List Int)),
    if_pos trivial]
  exact decodeType5_none_of_truncated (armorBits p) 5 hnone

/-- Claim C1, witness for the amended claim: 44 characters of `5` give
a 264-bit type-5 payload, which fails to decode. -/
theorem claim_C1_witness : decode_payload (List.replicate 44 '5') = none :=
  claim_C1_type5_truncation (List.replicate 44 '5') (by decide) (by decide)
    (by decide)

/-- Claim C5: `parse_nmea` fails exactly on the structural violations:
a line not starting with `!`, a line whose number of `*` characters is
not exactly one (zero or two `*` included), fewer than seven
comma-separated body fields, or a fragment-count, fragment-number or
non-empty fill-bits field that does not parse as an integer. -/
theorem claim_C5_malformed_sentence (line : List Char) :
    parse_nmea line = none ↔ structuralViolation line :=
  parse_nmea_none_iff line

/-- Claim C9: when a structurally valid sentence's payload fails to
decode, `parse_nmea` still returns all raw fields with no decoded
dictionary attached, and a payload decode failure never makes sentence
parsing itself fail. -/
theorem claim_C9_decode_failure_not_fatal :
    (∀ (line : List Char) (p : Parsed), parse_nmea line = some p →
      decode_payload p.payload = none →
      p.decoded = none ∧
      p.message_type = (bodyFields line).getD 0 [] ∧
      pyIntDec ((bodyFields line).getD 1 []) = some p.fragment_count ∧
      pyIntDec ((bodyFields line).getD 2 []) = some p.fragment_number ∧
      p.message_id = (bodyFields line).getD 3 [] ∧
      p.channel = (bodyFields line).getD 4 [] ∧
      p.payload = (bodyFields line).getD 5 [] ∧
      p.checksum = (pySplit line '*').getD 1 []) ∧
    (∀ line : List Char, ¬ structuralViolation line →
      parse_nmea line ≠ none) := by
  constructor
  · intro line p hp hdec
    obtain ⟨f0, f1, f2, f3, f4, f5, _, _, f8, f9⟩ :=
      parse_nmea_some_fields line p hp
    refine ⟨?_, f0, f1, f2, f3, f4, f5, f8⟩
    rw [f9, hdec]
  · exact parse_nmea_not_none

/-- Claim C9, witness: a valid sentence with an empty payload parses to
its raw fields while the payload decode fails. -/
theorem claim_C9_witness :
    witParsed.decoded = none ∧
    witParsed.message_type = (bodyFields witLine).getD 0 [] ∧
    pyIntDec ((bodyFields witLine).getD 1 []) = some witParsed.fragment_count ∧
    pyIntDec ((bodyFields witLine).getD 2 []) = some witParsed.fragment_number ∧
    witParsed.message_id = (bodyFields witLine).getD 3 [] ∧
    witParsed.channel = (bodyFields witLine).getD 4 [] ∧
    witParsed.payload = (bodyFields witLine).getD 5 [] ∧
    witParsed.checksum = (pySplit witLine '*').getD 1 [] :=
  claim_C9_decode_failure_not_fatal.1 witLine witParsed (by decide) (by decide)

/-- Claim C10: the decoded sub-structure attached by `parse_nmea`
depends only on the payload field — two successfully parsed sentences
with equal payload fields have equal decoded results, whatever their
other fields (fill bits included). -/
theorem claim_C10_decode_depends_only_on_payload (l1 l2 : List Char)
    (p1 p2 : Parsed) (h1 : parse_nmea l1 = some p1)
    (h2 : parse_nmea l2 = some p2) (hpay : p1.payload = p2.payload) :
    p1.decoded = p2.decoded := by
  have d1 := (parse_nmea_some_fields l1 p1 h1).2.2.2.2.2.2.2.2.2
  have d2 := (parse_nmea_some_fields l2 p2 h2).2.2.2.2.2.2.2.2.2
  rw [d1, d2, hpay]

/-- Claim C10, witness: two sentences sharing the payload `w` but
differing in every other field decode identically. -/
theorem claim_C10_witness : witParsedA.decoded = witParsedB.decoded :=
  claim_C10_decode_depends_only_on_payload witLineA witLineB witParsedA
    witParsedB (by decide) (by decide) (by decide)

theorem head?_mem (l : List Char) (c : Char) (h : l.head? = some c) :
    c ∈ l := by
  cases l with
  | nil => simp at h
  | cons a r =>
    simp only [List.head?_cons, Option.some.injEq] at h
    subst h
    exact List.mem_cons_self a r

/-- Claim C7: on any actual bit range, `decode_string` never fails, an
empty range yields the empty string, and the returned string never ends
in `@` or in a whitespace character. -/
theorem claim_C7_bits_to_text (s : List Char)
    (hbits : ∀ c ∈ s, c = '0' ∨ c = '1') :
    (∃ t, decode_string s = some t) ∧
    (s = [] → decode_string s = some []) ∧
    (∀ (t : List Char) (c : Char), decode_string s = some t →
      t.reverse.head? = some c → c ≠ '@' ∧ pyIsSpace c = false) := by
  obtain ⟨t0, ht0⟩ := decodeStringGo_bits_isSome s.length s hbits
  have hds : decode_string s =
      some (stripBoth pyIsSpace (stripBoth (fun c => c = '@') t0)) := by
    unfold decode_string decodeStringLoop
    rw [ht0]
  refine ⟨⟨_, hds⟩, ?_, ?_⟩
  · intro hnil
    subst hnil
    rfl
  · intro t c htd hc
    rw [hds] at htd
    have ht : t = stripBoth pyIsSpace (stripBoth (fun c => c = '@') t0) := by
      simpa using htd.symm
    subst ht
    constructor
    · have hmem : c ∈ stripBoth pyIsSpace (stripBoth (fun c => c = '@') t0) := by
        have hmr := head?_mem _ c hc
        rw [List.mem_reverse] at hmr
        exact hmr
      have hmem2 : c ∈ stripBoth (fun c => c = '@') t0 :=
        mem_stripBoth pyIsSpace _ c hmem
      exact stripBoth_at_free t0
        (decodeStringGo_dropLast_at_free s.length s t0 hbits ht0) c hmem2
    · exact stripBoth_last_false pyIsSpace _ c hc

/-- Claim C7, witness at the ten-bit range `0100000011`. -/
theorem claim_C7_witness :
    (∃ t, decode_string ("0100000011".toList) = some t) ∧
    (("0100000011".toList : List Char) = [] →
      decode_string ("0100000011".toList) = some []) ∧
    (∀ (t : List Char) (c : Char),
      decode_string ("0100000011".toList) = some t →
      t.reverse.head? = some c → c ≠ '@' ∧ pyIsSpace c = false) :=
  claim_C7_bits_to_text ("0100000011".toList) (by decide)

/-- Claim C3, counterexample: decoding the type-1 payload `cexPayload`
succeeds with longitude `134217727 / 600000 ≈ 223.7`, which is not in
`[-180, 181)`. -/
theorem claim_C3_counterexample :
    decode_payload cexPayload = some cexDecoded ∧
    cexDecoded.longitude = some (((134217727 : Int) : ℚ) / 600000) ∧
    ¬ (((134217727 : Int) : ℚ) / 600000 < 181) := by
  refine ⟨by exact rfl, rfl, by norm_num⟩

/-- Claim C3, amended: decoded longitudes lie in
`[-2^27/600000, 2^27/600000) ≈ [-223.7, 223.7)` and decoded latitudes
in `[-2^26/600000, 2^26/600000) ≈ [-111.9, 111.9)` — not in
`[-180, 181)` and `[-90, 91)` as claimed, since the code never
validates the ranges; the sentinel raw values decoding to 181 and 91
are representable and preserved unchanged. -/
theorem claim_C3_coordinate_ranges :
    (∀ (p : List Char) (d : Decoded) (q : ℚ), decode_payload p = some d →
      d.longitude = some q →
      -(134217728 : ℚ) / 600000 ≤ q ∧ q < (134217728 : ℚ) / 600000) ∧
    (∀ (p : List Char) (d : Decoded) (q : ℚ), decode_payload p = some d →
      d.latitude = some q →
      -(67108864 : ℚ) / 600000 ≤ q ∧ q < (67108864 : ℚ) / 600000) ∧
    lonFromRaw (181 * 600000) = 181 ∧ latFromRaw (91 * 600000) = 91 := by
  refine ⟨?_, ?_, ?_, ?_⟩
  · intro p d q hp hq
    obtain ⟨mt, hmt, hcase⟩ := decode_payload_dispatch p d hp
    rcases hcase with ⟨_, hd⟩ | ⟨_, hd⟩ | ⟨_, hd⟩ | ⟨_, hd⟩ | ⟨_, _, _, _, hd⟩
    · obtain ⟨raw_lon, raw_lat, hlon, _, hdl, _, _⟩ :=
        decodeType123_some_inv _ _ _ hd
      rw [hdl] at hq
      have hqe : lonFromRaw raw_lon = q := by simpa using hq
      have hb := intSlice_bounds (armorBits p) 61 89 raw_lon (by omega) hlon
      have hb1 : -(2 ^ 27 : Int) < raw_lon := by
        have := hb.1
        norm_num at this ⊢
        omega
      have hb2 : raw_lon < 2 ^ 28 := by
        have := hb.2
        norm_num at this ⊢
        omega
      rw [← hqe]
      exact lonFromRaw_bounds raw_lon hb1 hb2
    · obtain ⟨hl, _, _⟩ := decodeType5_some_flat _ _ _ hd
      rw [hl] at hq
      exact absurd hq (by simp)
    · obtain ⟨raw_lon, raw_lat, hlon, _, hdl, _, _⟩ :=
        decodeType18_some_inv _ _ _ hd
      rw [hdl] at hq
      have hqe : lonFromRaw raw_lon = q := by simpa using hq
      have hb := intSlice_bounds (armorBits p) 57 85 raw_lon (by omega) hlon
      have hb1 : -(2 ^ 27 : Int) < raw_lon := by
        have := hb.1
        norm_num at this ⊢
        omega
      have hb2 : raw_lon < 2 ^ 28 := by
        have := hb.2
        norm_num at this ⊢
        omega
      rw [← hqe]
      exact lonFromRaw_bounds raw_lon hb1 hb2
    · obtain ⟨hl, _, _⟩ := decodeType24_some_flat _ _ _ hd
      rw [hl] at hq
      exact absurd hq (by simp)
    · rw [hd] at hq
      simp at hq
  · intro p d q hp hq
    obtain ⟨mt, hmt, hcase⟩ := decode_payload_dispatch p d hp
    rcases hcase with ⟨_, hd⟩ | ⟨_, hd⟩ | ⟨_, hd⟩ | ⟨_, hd⟩ | ⟨_, _, _, _, hd⟩
    · obtain ⟨raw_lon, raw_lat, _, hlat, _, hdlat, _⟩ :=
        decodeType123_some_inv _ _ _ hd
      rw [hdlat] at hq
      have hqe : latFromRaw raw_lat = q := by simpa using hq
      have hb := intSlice_bounds (armorBits p) 89 116 raw_lat (by omega) hlat
      have hb1 : -(2 ^ 26 : Int) < raw_lat := by
        have := hb.1
        norm_num at this ⊢
        omega
      have hb2 : raw_lat < 2 ^ 27 := by
        have := hb.2
        norm_num at this ⊢
        omega
      rw [← hqe]
      exact latFromRaw_bounds raw_lat hb1 hb2
    · obtain ⟨_, hl, _⟩ := decodeType5_some_flat _ _ _ hd
      rw [hl] at hq
      exact absurd hq (by simp)
    · obtain ⟨raw_lon, raw_lat, _, hlat, _, hdlat, _⟩ :=
        decodeType18_some_inv _ _ _ hd
      rw [hdlat] at hq
      have hqe : latFromRaw raw_lat = q := by simpa using hq
      have hb := intSlice_bounds (armorBits p) 85 112 raw_lat (by omega) hlat
      have hb1 : -(2 ^ 26 : Int) < raw_lat := by
        have := hb.1
        norm_num at this ⊢
        omega
      have hb2 : raw_lat < 2 ^ 27 := by
        have := hb.2
        norm_num at this ⊢
        omega
      rw [← hqe]
      exact latFromRaw_bounds raw_lat hb1 hb2
    · obtain ⟨_, hl, _⟩ := decodeType24_some_flat _ _ _ hd
      rw [hl] at hq
      exact absurd hq (by simp)
    · rw [hd] at hq
      simp at hq
  · unfold lonFromRaw
    rw [if_neg (by norm_num)]
    push_cast
    norm_num
  · unfold latFromRaw
    rw [if_neg (by norm_num)]
    push_cast
    norm_num

/-- Claim C3, witness for the amended bounds at `cexPayload`. -/
theorem claim_C3_witness :
    -(134217728 : ℚ) / 600000 ≤ ((134217727 : Int) : ℚ) / 600000 ∧
    ((134217727 : Int) : ℚ) / 600000 < (134217728 : ℚ) / 600000 :=
  claim_C3_coordinate_ranges.1 cexPayload cexDecoded
    (((134217727 : Int) : ℚ) / 600000) (by exact rfl) rfl
